import Mathlib

/-!
Shallow embedding of `sktime/utils/validation/forecasting.py` and proofs of
the specification claims about it.

Python scalars, numpy arrays, pandas indices and series are embedded as
explicit inductive types; each validator becomes a total Lean function
returning `Except` (the `error` constructors stand for the exceptions the
Python code raises, in the order the code tests for them).
-/

deriving instance DecidableEq for Except

namespace Sktime

/-- Modelled from the spec: the helper `is_int` (imported from
`sktime.utils.validation`, whose source is not included) tests whether a
value is an integer; per the spec wording ("the value must be an integer"),
a Python scalar is embedded as `PyScalar.int n` exactly when `is_int`
accepts it, and as `PyScalar.nonInt` otherwise. -/
inductive PyScalar where
  | int (n : Int)
  | nonInt
deriving DecidableEq

/-- Embedding of the `is_int` test on an embedded scalar. -/
def is_int : PyScalar → Bool
  | .int _ => true
  | .nonInt => false

/-- The integer value of a scalar (only meaningful when `is_int` holds). -/
def PyScalar.toInt : PyScalar → Int
  | .int n => n
  | .nonInt => 0

/-- The kind of a pandas index: `pd.RangeIndex`, `pd.Int64Index`,
`pd.UInt64Index`, or one of the unsupported kinds (datetime, period,
object, float64, ...). -/
inductive IndexKind where
  | range
  | int64
  | uint64
  | datetime
  | period
  | objectKind
deriving DecidableEq

/-- A pandas index: its kind together with the sequence of its values
(for calendar kinds the values are the underlying integer positions). -/
structure PIndex where
  kind : IndexKind
  vals : List Int
deriving DecidableEq

/-- The membership test `isinstance(time_index, (pd.RangeIndex, pd.Int64Index,
pd.UInt64Index))` from `check_time_index`. -/
def supportedIndexKind : IndexKind → Bool
  | .range => true
  | .int64 => true
  | .uint64 => true
  | _ => false

/-- Embedding of the pandas property `Index.is_monotonic`
(monotonically non-decreasing; duplicates allowed). -/
def is_monotonic : List Int → Bool
  | [] => true
  | [_] => true
  | a :: b :: rest => decide (a ≤ b) && is_monotonic (b :: rest)

/-- Errors raised by `check_time_index`: `NotImplementedError` for an
unsupported index type, `ValueError` for an unsorted index. -/
inductive TimeIndexErr where
  | unsupportedKind
  | unsorted
deriving DecidableEq

/-- Input to `check_time_index`: either a pandas index, or a numpy array;
for an array the stored `PIndex` is the index `pd.Index(array)` produces
from it (an integer array yields an `Int64Index` or `UInt64Index`, a float
or datetime array yields an unsupported kind). -/
inductive TimeIndexInput where
  | idx (i : PIndex)
  | arr (i : PIndex)
deriving DecidableEq

/-- The index after the optional `pd.Index(...)` wrapping step. -/
def wrapTimeIndex : TimeIndexInput → PIndex
  | .idx i => i
  | .arr i => i

/-- Embedding of `check_time_index`. -/
def check_time_index (t : TimeIndexInput) : Except TimeIndexErr PIndex :=
  if supportedIndexKind (wrapTimeIndex t).kind = false then
    .error .unsupportedKind
  else if is_monotonic (wrapTimeIndex t).vals = false then .error .unsorted
  else .ok (wrapTimeIndex t)

/-- Errors raised by `check_y` (in source order): wrong type, empty series,
the `IndexError` from `y.iloc[0]` on an empty series inside the
constant-series test, the constant-series `ValueError`, or an error
propagated from `check_time_index`. -/
inductive CheckYErr where
  | wrongType
  | emptySeries
  | ilocOutOfBounds
  | constantSeries
  | index (e : TimeIndexErr)
deriving DecidableEq

/-- Input to `check_y`: a pandas Series (values plus index) or any other
value. -/
inductive YInput where
  | series (vals : List Int) (index : PIndex)
  | notSeries
deriving DecidableEq

/-- Embedding of `check_y`.  The constant-series branch evaluates
`y.iloc[0]` before anything else, which raises `IndexError` on an empty
series. -/
def check_y (y : YInput) (allow_empty allow_constant : Bool) :
    Except CheckYErr YInput :=
  match y with
  | .notSeries => .error .wrongType
  | .series vals idx =>
    if allow_empty = false ∧ vals.length < 1 then .error .emptySeries
    else if allow_constant = false then
      match vals with
      | [] => .error .ilocOutOfBounds
      | v0 :: _ =>
        if vals.all (fun v => v = v0) then .error .constantSeries
        else
          match check_time_index (.idx idx) with
          | .error e => .error (.index e)
          | .ok _ => .ok (.series vals idx)
    else
      match check_time_index (.idx idx) with
      | .error e => .error (.index e)
      | .ok _ => .ok (.series vals idx)

/-- A cell of the single row of the nested table passed to `check_X`:
either a pandas object exposing an `.index` attribute (embedded by the
value sequence of that index), or a raw sequence with no index, embedded
by its length. -/
inductive Cell where
  | series (index : List Int)
  | raw (len : Nat)
deriving DecidableEq

/-- `cell.shape[0]` of a cell: the length of its contents. -/
def cellShape0 : Cell → Nat
  | .series idx => idx.length
  | .raw n => n

/-- The value sequence of `pd.RangeIndex(n)`. -/
def rangeIndex (n : Nat) : List Int :=
  (List.range n).map Int.ofNat

/-- The index the CODE computes for a non-first column in `check_X`:
the cell index when the cell has one, otherwise
`pd.RangeIndex(X.iloc[0, 0].shape[0])` — note the fallback is sized by the
FIRST column cell (`firstShape`), not by the cell itself. -/
def codeEffIndex (firstShape : Nat) : Cell → List Int
  | .series idx => idx
  | .raw _ => rangeIndex firstShape

/-- The effective index of a cell per the spec rule (and per line 151 of the
source for the first column): the cell index when the cell has one,
otherwise a dense range sized to that cell own element count. -/
def specEffIndex : Cell → List Int
  | .series idx => idx
  | .raw n => rangeIndex n

/-- Errors raised by `check_X` (in source order): wrong type, more than one
row, the `IndexError` from `X.iloc[0, 0]` on a frame with no row or no
column, empty first cell, or an inconsistent index at column `c`. -/
inductive CheckXErr where
  | wrongType
  | multiRow
  | ilocError
  | emptyNested
  | inconsistentIndex (c : Nat)
deriving DecidableEq

/-- Input to `check_X`: a pandas DataFrame (its row count together with the
cells of its first row) or any other value. -/
inductive XInput where
  | frame (nrows : Nat) (row : List Cell)
  | notFrame
deriving DecidableEq

/-- The comparison loop of `check_X`: positionally scan all columns and
return the position of the first column whose code-computed index differs
from the first column index. -/
def findBadColumn (firstIndex : List Int) (firstShape : Nat) :
    List Cell → Nat → Option Nat
  | [], _ => none
  | c :: rest, i =>
    if firstIndex ≠ codeEffIndex firstShape c then some i
    else findBadColumn firstIndex firstShape rest (i + 1)

/-- Embedding of `check_X`. -/
def check_X (X : XInput) : Except CheckXErr (List Cell) :=
  match X with
  | .notFrame => .error .wrongType
  | .frame nrows row =>
    if nrows > 1 then .error .multiRow
    else if nrows = 0 then .error .ilocError
    else
      match row with
      | [] => .error .ilocError
      | c0 :: _ =>
        let firstIndex := specEffIndex c0
        if firstIndex.length < 1 then .error .emptyNested
        else
          match findBadColumn firstIndex (cellShape0 c0) row 0 with
          | some c => .error (.inconsistentIndex c)
          | none => .ok row

/-- Errors raised by `check_window_length`, `check_step_length` and
`check_sp`: a single `ValueError` covers non-integers and values below 1. -/
inductive ScalarErr where
  | invalid
deriving DecidableEq

/-- Embedding of `check_window_length`. -/
def check_window_length (window_length : Option PyScalar) :
    Except ScalarErr (Option PyScalar) :=
  match window_length with
  | none => .ok none
  | some s =>
    match s with
    | .int n => if n < 1 then .error .invalid else .ok (some (.int n))
    | .nonInt => .error .invalid

/-- Embedding of `check_step_length`. -/
def check_step_length (step_length : Option PyScalar) :
    Except ScalarErr (Option PyScalar) :=
  match step_length with
  | none => .ok none
  | some s =>
    match s with
    | .int n => if n < 1 then .error .invalid else .ok (some (.int n))
    | .nonInt => .error .invalid

/-- Embedding of `check_sp`. -/
def check_sp (sp : Option PyScalar) : Except ScalarErr (Option PyScalar) :=
  match sp with
  | none => .ok none
  | some s =>
    match s with
    | .int n => if n < 1 then .error .invalid else .ok (some (.int n))
    | .nonInt => .error .invalid

/-- Errors raised by `check_fh` (in source order): not 1-D, array of
non-integer dtype, list with a non-integer element, wrong type, empty
horizon, duplicated steps. -/
inductive FHErr where
  | wrongDimension
  | nonIntegerArray
  | nonIntegerList
  | wrongType
  | emptyHorizon
  | duplicates
deriving DecidableEq

/-- Input to `check_fh`: a scalar accepted by `is_int`, a numpy array (its
number of dimensions, whether its dtype is an integer kind, and its values),
a list of scalars, or any other value.  Zero-dimensional arrays, on which
`len()` raises before any behaviour relevant here, are not represented:
`ndim` is at least 1 for represented arrays. -/
inductive FHInput where
  | int (i : Int)
  | array (ndim : Nat) (intDtype : Bool) (data : List Int)
  | list (elems : List PyScalar)
  | other
deriving DecidableEq

/-- The integer values of a list of scalars (used under the guard that
`is_int` holds of every element). -/
def listToInts (elems : List PyScalar) : List Int :=
  elems.map PyScalar.toInt

/-- The tail of `check_fh` after type normalization: the emptiness check,
the duplicate check by `len(fh) != len(np.unique(fh))`, and the ascending
in-place sort. -/
def fhFinish (fh : List Int) : Except FHErr (List Int) :=
  if fh.length < 1 then .error .emptyHorizon
  else if fh.length ≠ fh.dedup.length then .error .duplicates
  else .ok (fh.insertionSort (fun a b => a ≤ b))

/-- Embedding of `check_fh`. -/
def check_fh : FHInput → Except FHErr (List Int)
  | .int i => fhFinish [i]
  | .array ndim intDtype data =>
    if ndim > 1 then .error .wrongDimension
    else if intDtype = false then .error .nonIntegerArray
    else fhFinish data
  | .list elems =>
    if elems.all is_int then fhFinish (listToInts elems)
    else .error .nonIntegerList
  | .other => .error .wrongType

/-- The integer sequence an input denotes once the type-dispatch step of
`check_fh` succeeds (`none` when that step raises). -/
def fhRaw : FHInput → Option (List Int)
  | .int i => some [i]
  | .array ndim intDtype data =>
    if ndim ≤ 1 ∧ intDtype = true then some data else none
  | .list elems =>
    if elems.all is_int then some (listToInts elems) else none
  | .other => none

/-- Whether a `check_fh` input is a numpy array. -/
def isArrayInput : FHInput → Bool
  | .array _ _ _ => true
  | _ => false

/-- The value of the caller argument observable after `check_fh` returns or
raises.  The final statement of `check_fh` is `fh.sort()`, the IN-PLACE
numpy sort; when the input was itself an array, `fh` still aliases the
caller array at that point, so a successful call leaves the caller array
sorted.  Failing calls raise before the sort, and for scalar or list inputs
`fh` has been rebound to a fresh array, so those inputs are unchanged. -/
def check_fh_post (inp : FHInput) : FHInput :=
  match inp with
  | .array ndim intDtype data =>
    match check_fh (.array ndim intDtype data) with
    | .ok _ => .array ndim intDtype (data.insertionSort (fun a b => a ≤ b))
    | .error _ => .array ndim intDtype data
  | inp => inp

/-- Errors raised by `check_consistent_time_index`: indexing `ys[0]` on an
empty argument tuple, an error propagated from `check_time_index`, unequal
indices, or training index reaching into the reference index. -/
inductive ConsistencyErr where
  | noSeries
  | index (e : TimeIndexErr)
  | indexMismatch
  | trainingLeak
deriving DecidableEq

/-- Embedding of `y_train.index.max() >= first_index.min()`.  On an empty
index pandas `max`/`min` return `nan` and every `nan` comparison is false,
hence the `Option` fallthrough. -/
def maxGeMin (train first : List Int) : Bool :=
  match train.max?, first.min? with
  | some M, some m => decide (m ≤ M)
  | _, _ => false

/-- The loop of `check_consistent_time_index` over the series after the
first: validate each index, then compare it with the reference index using
`pd.Index.equals` (value-wise, order-sensitive equality). -/
def checkRestIndices (first : PIndex) : List PIndex → Except ConsistencyErr Unit
  | [] => .ok ()
  | y :: rest =>
    match check_time_index (.idx y) with
    | .error e => .error (.index e)
    | .ok _ =>
      if first.vals ≠ y.vals then .error .indexMismatch
      else checkRestIndices first rest

/-- Embedding of `check_consistent_time_index`; each series is represented
by its index, the only part the function inspects. -/
def check_consistent_time_index (ys : List PIndex) (y_train : Option PIndex) :
    Except ConsistencyErr Unit :=
  match ys with
  | [] => .error .noSeries
  | first :: rest =>
    match check_time_index (.idx first) with
    | .error e => .error (.index e)
    | .ok _ =>
      match checkRestIndices first rest with
      | .error e => .error e
      | .ok _ =>
        match y_train with
        | none => .ok ()
        | some tr =>
          match check_time_index (.idx tr) with
          | .error e => .error (.index e)
          | .ok _ =>
            if maxGeMin tr.vals first.vals then .error .trainingLeak
            else .ok ()

/-- Errors raised by `check_alpha`: a list with a non-float element, a value
outside the open unit interval, or the `TypeError` from `for a in alpha`
when `alpha` is neither a list nor a float nor otherwise iterable (in
particular when it is `None` or an integer). -/
inductive CheckAlphaErr where
  | notFloatList
  | outOfRange
  | notIterable
deriving DecidableEq

/-- Input to `check_alpha`: `None`, a float (embedded as a rational, exact
for every comparison the code performs), an integer, a list whose elements
are floats (`some x`) or non-floats (`none`), or any other non-iterable
value. -/
inductive AlphaInput where
  | none
  | float (x : Rat)
  | int (n : Int)
  | list (elems : List (Option Rat))
  | other
deriving DecidableEq

/-- The membership test `0 < a < 1` of the `check_alpha` range loop. -/
def alphaInRange (a : Rat) : Bool :=
  decide (0 < a) && decide (a < 1)

/-- The range loop of `check_alpha`: raise on the first value outside
`(0, 1)`, otherwise return the list itself. -/
def alphaRangeCheck (l : List Rat) : Except CheckAlphaErr (List Rat) :=
  if l.all alphaInRange then .ok l else .error .outOfRange

/-- Embedding of `check_alpha`.  Values that are neither lists nor floats
reach the `for a in alpha` loop unconverted; `None` and integers are not
iterable, so the loop header raises `TypeError`. -/
def check_alpha : AlphaInput → Except CheckAlphaErr (List Rat)
  | .none => .error .notIterable
  | .int _ => .error .notIterable
  | .other => .error .notIterable
  | .float x => alphaRangeCheck [x]
  | .list elems =>
    if elems.all Option.isSome then alphaRangeCheck (elems.filterMap id)
    else .error .notFloatList

/-- Errors raised by `check_cutoffs` (in source order). -/
inductive CutoffsErr where
  | wrongType
  | nonInteger
  | wrongDimension
  | empty
deriving DecidableEq

/-- Input to `check_cutoffs`: `None`, a numpy array (dimensions plus the
scalars iteration yields), or any other non-array value. -/
inductive CutoffsInput where
  | none
  | array (ndim : Nat) (elems : List PyScalar)
  | other
deriving DecidableEq

/-- Embedding of `check_cutoffs`; note `np.sort` returns a sorted copy, so
unlike `check_fh` this validator does not mutate its argument. -/
def check_cutoffs : CutoffsInput → Except CutoffsErr (List Int)
  | .none => .error .wrongType
  | .other => .error .wrongType
  | .array ndim elems =>
    if (elems.all is_int) = false then .error .nonInteger
    else if ndim ≠ 1 then .error .wrongDimension
    else if elems.length = 0 then .error .empty
    else .ok ((elems.map PyScalar.toInt).insertionSort (fun a b => a ≤ b))

/-! ## Helper lemmas -/

theorem is_monotonic_iff_sorted (l : List Int) :
    is_monotonic l = true ↔ l.Sorted (fun a b => a ≤ b) := by
  induction l with
  | nil => simp [is_monotonic]
  | cons a t ih =>
    cases t with
    | nil => simp [is_monotonic]
    | cons b r =>
      rw [List.sorted_cons]
      constructor
      · intro h
        simp only [is_monotonic, Bool.and_eq_true, decide_eq_true_eq] at h
        obtain ⟨hab, hrest⟩ := h
        have hs := ih.mp hrest
        refine ⟨?_, hs⟩
        intro x hx
        rcases List.mem_cons.mp hx with rfl | hx
        · exact hab
        · exact le_trans hab (List.rel_of_sorted_cons hs x hx)
      · rintro ⟨hall, hs⟩
        simp only [is_monotonic, Bool.and_eq_true, decide_eq_true_eq]
        exact ⟨hall b (List.mem_cons_self b r), ih.mpr hs⟩

theorem nodup_of_dedup_length {l : List Int} (h : l.length = l.dedup.length) :
    l.Nodup := by
  have hsub := List.dedup_sublist l
  have heq : l.dedup = l := hsub.eq_of_length h.symm
  exact List.dedup_eq_self.mp heq

theorem fhFinish_ok {l out : List Int} (h : fhFinish l = .ok out) :
    out = l.insertionSort (fun a b => a ≤ b) ∧ l ≠ [] ∧ l.Nodup := by
  unfold fhFinish at h
  split at h
  · cases h
  next h1 =>
    split at h
    · cases h
    next h2 =>
      injection h with h
      refine ⟨h.symm, ?_, ?_⟩
      · rintro rfl
        exact h1 (by simp)
      · exact nodup_of_dedup_length (not_ne_iff.mp h2)

theorem fhFinish_dups {l : List Int} (hd : ¬ l.Nodup) :
    fhFinish l = .error .duplicates := by
  have hne : l ≠ [] := by rintro rfl; exact hd List.nodup_nil
  have h1 : ¬ l.length < 1 := by
    cases l with
    | nil => exact absurd rfl hne
    | cons a t => simp
  have h2 : l.length ≠ l.dedup.length := fun h => hd (nodup_of_dedup_length h)
  unfold fhFinish
  rw [if_neg h1, if_pos h2]

theorem check_fh_eq_finish {inp : FHInput} {raw : List Int}
    (h : fhRaw inp = some raw) : check_fh inp = fhFinish raw := by
  cases inp with
  | int i =>
    simp only [fhRaw, Option.some.injEq] at h
    subst h; rfl
  | array ndim intDtype data =>
    simp only [fhRaw] at h
    split at h
    next hc =>
      injection h with h
      subst h
      obtain ⟨hle, hd⟩ := hc
      subst hd
      simp [check_fh, Nat.not_lt.mpr hle]
    · cases h
  | list elems =>
    simp only [fhRaw] at h
    split at h
    next hc =>
      injection h with h
      subst h
      simp [check_fh, hc]
    · cases h
  | other => cases h

theorem check_fh_ok_raw {inp : FHInput} {out : List Int}
    (h : check_fh inp = .ok out) : ∃ raw, fhRaw inp = some raw := by
  cases inp with
  | int i => exact ⟨[i], rfl⟩
  | array ndim intDtype data =>
    simp only [check_fh] at h
    split at h
    · cases h
    next h1 =>
      split at h
      · cases h
      next h2 =>
        refine ⟨data, ?_⟩
        simp only [fhRaw, if_pos]
        exact if_pos ⟨Nat.le_of_not_lt h1, by simpa using h2⟩
  | list elems =>
    simp only [check_fh] at h
    split at h
    next hc => exact ⟨listToInts elems, by simp [fhRaw, hc]⟩
    · cases h
  | other => cases h

/-! ## Claims about check_fh -/

/-- C1: for every input accepted by check_fh, the returned horizon is sorted
ascending, has no duplicates, and is a permutation of the normalized input
data; an input whose data has duplicates is rejected with the duplicates
error, and an input whose data is empty is rejected with the empty-horizon
error. -/
theorem check_fh_canonical :
    (∀ inp out, check_fh inp = .ok out →
      ∃ raw, fhRaw inp = some raw ∧
        out.Sorted (fun a b => a ≤ b) ∧ out.Nodup ∧ out.Perm raw) ∧
    (∀ inp raw, fhRaw inp = some raw → ¬ raw.Nodup →
      check_fh inp = .error .duplicates) ∧
    (∀ inp, fhRaw inp = some [] → check_fh inp = .error .emptyHorizon) := by
  refine ⟨?_, ?_, ?_⟩
  · intro inp out h
    obtain ⟨raw, hraw⟩ := check_fh_ok_raw h
    have hfin : fhFinish raw = .ok out := (check_fh_eq_finish hraw) ▸ h
    obtain ⟨ho, _, hnd⟩ := fhFinish_ok hfin
    subst ho
    have hperm := List.perm_insertionSort (fun a b => a ≤ b) raw
    refine ⟨raw, hraw, ?_, ?_, hperm⟩
    · exact List.sorted_insertionSort (fun a b => a ≤ b) raw
    · exact hperm.nodup_iff.mpr hnd
  · intro inp raw hraw hd
    rw [check_fh_eq_finish hraw]
    exact fhFinish_dups hd
  · intro inp hraw
    rw [check_fh_eq_finish hraw]
    rfl

/-- Witness for C1: a concrete accepted input with out-of-order data, a
duplicated list input, and an empty array input. -/
theorem check_fh_canonical_witness :
    (([1, 2, 3] : List Int).Sorted (fun a b => a ≤ b) ∧
      ([1, 2, 3] : List Int).Nodup ∧
      ([1, 2, 3] : List Int).Perm [2, 1, 3]) ∧
    check_fh (.list [.int 1, .int 1]) = .error .duplicates ∧
    check_fh (.array 1 true []) = .error .emptyHorizon := by
  refine ⟨?_, ?_, ?_⟩
  · obtain ⟨raw, hraw, hs, hn, hp⟩ :=
      check_fh_canonical.1 (.array 1 true [2, 1, 3]) [1, 2, 3] (by decide)
    have he : fhRaw (.array 1 true [2, 1, 3]) = some [2, 1, 3] := by decide
    injection he.symm.trans hraw with h
    subst h
    exact ⟨hs, hn, hp⟩
  · exact check_fh_canonical.2.1 (.list [.int 1, .int 1]) [1, 1]
      (by decide) (by decide)
  · exact check_fh_canonical.2.2 (.array 1 true []) (by decide)

/-- C7: check_fh is idempotent on canonical horizons: a nonempty, sorted,
duplicate-free 1-D integer array normalizes to itself. -/
theorem check_fh_idempotent (l : List Int) (h1 : l ≠ [])
    (h2 : l.Sorted (fun a b => a ≤ b)) (h3 : l.Nodup) :
    check_fh (.array 1 true l) = .ok l := by
  have hfin : fhFinish l = .ok l := by
    unfold fhFinish
    rw [if_neg, if_neg]
    · rw [List.Sorted.insertionSort_eq h2]
    · rw [not_ne_iff, List.dedup_eq_self.mpr h3]
    · simpa [Nat.lt_one_iff, List.length_eq_zero] using h1
  have hraw : fhRaw (.array 1 true l) = some l := by simp [fhRaw]
  rw [check_fh_eq_finish hraw]
  exact hfin

/-- Witness for C7 at the canonical horizon [1, 2, 3]. -/
theorem check_fh_idempotent_witness :
    check_fh (.array 1 true [1, 2, 3]) = .ok [1, 2, 3] :=
  check_fh_idempotent [1, 2, 3] (by decide) (by decide) (by decide)

/-- C8 counterexample: check_fh is NOT pure with respect to an array
argument: on the unsorted array [2, 1] the call succeeds and the in-place
sort leaves the caller with [1, 2], not the original value. -/
theorem check_fh_not_pure_counterexample :
    check_fh (.array 1 true [2, 1]) = .ok [1, 2] ∧
    check_fh_post (.array 1 true [2, 1]) ≠ .array 1 true [2, 1] := by decide

/-- C8 amended: scalar, list and other inputs are never mutated, and a
failing call leaves an array input unchanged; but a successful call on an
array input sorts it in place, so the caller afterwards observes the array
holding the sorted permutation of its previous values. -/
theorem check_fh_mutation :
    (∀ inp, isArrayInput inp = false → check_fh_post inp = inp) ∧
    (∀ ndim intDtype data e,
      check_fh (.array ndim intDtype data) = .error e →
      check_fh_post (.array ndim intDtype data) = .array ndim intDtype data) ∧
    (∀ ndim intDtype data out,
      check_fh (.array ndim intDtype data) = .ok out →
      check_fh_post (.array ndim intDtype data) = .array ndim intDtype out ∧
        out.Perm data ∧ out.Sorted (fun a b => a ≤ b)) := by
  refine ⟨?_, ?_, ?_⟩
  · intro inp h
    cases inp with
    | int i => rfl
    | array n d a => cases h
    | list es => rfl
    | other => rfl
  · intro n d a e h
    simp [check_fh_post, h]
  · intro n d a out h
    have hfin : fhFinish a = .ok out := by
      simp only [check_fh] at h
      split at h
      · cases h
      · split at h
        · cases h
        · exact h
    obtain ⟨ho, _, _⟩ := fhFinish_ok hfin
    subst ho
    refine ⟨by simp [check_fh_post, h], ?_, ?_⟩
    · exact List.perm_insertionSort (fun a b => a ≤ b) a
    · exact List.sorted_insertionSort (fun a b => a ≤ b) a

/-- Witness for the amended C8: an untouched non-array input, an untouched
failing array input, and a successful call that leaves the array sorted. -/
theorem check_fh_mutation_witness :
    check_fh_post FHInput.other = FHInput.other ∧
    check_fh_post (.array 2 true [1]) = .array 2 true [1] ∧
    check_fh_post (.array 1 true [2, 1]) = .array 1 true [1, 2] :=
  ⟨check_fh_mutation.1 FHInput.other (by decide),
   check_fh_mutation.2.1 2 true [1] .wrongDimension (by decide),
   (check_fh_mutation.2.2 1 true [2, 1] [1, 2] (by decide)).1⟩

/-! ## Claims about the scalar validators -/

/-- C2 counterexample: not every scalar validator passes None through:
check_alpha(None) reaches the range loop unconverted and iterating None
raises TypeError, and check_cutoffs(None) is rejected by the array type
check. -/
theorem scalar_validators_none_counterexample :
    check_alpha AlphaInput.none = .error CheckAlphaErr.notIterable ∧
    check_cutoffs CutoffsInput.none = .error CutoffsErr.wrongType := by decide

/-- C2 amended: check_window_length, check_step_length and check_sp return
None unchanged when called with None, while check_alpha raises a TypeError
(iteration over None) and check_cutoffs raises a wrong-type error. -/
theorem scalar_validators_none :
    check_window_length Option.none = .ok Option.none ∧
    check_step_length Option.none = .ok Option.none ∧
    check_sp Option.none = .ok Option.none ∧
    check_alpha AlphaInput.none = .error CheckAlphaErr.notIterable ∧
    check_cutoffs CutoffsInput.none = .error CutoffsErr.wrongType := by decide

/-! ## Claim about check_X -/

/-- C3: the fallback index for a non-first raw cell is sized by the FIRST
column cell, so a single-row table whose raw cells have lengths 3 and 2 is
accepted by check_X even though the effective index of the second cell
under the spec rule (a range sized to that cell) differs from the first
cell index; the last conjunct shows the code-side comparison that makes
the mismatch invisible. -/
theorem check_X_fallback_divergence :
    check_X (.frame 1 [Cell.raw 3, Cell.raw 2]) = .ok [Cell.raw 3, Cell.raw 2] ∧
    specEffIndex (Cell.raw 2) ≠ specEffIndex (Cell.raw 3) ∧
    codeEffIndex (cellShape0 (Cell.raw 3)) (Cell.raw 2) =
      specEffIndex (Cell.raw 3) := by decide

/-! ## Claim about check_time_index -/

theorem check_time_index_ok_val {t : TimeIndexInput} {out : PIndex}
    (h : check_time_index t = .ok out) : out = wrapTimeIndex t := by
  unfold check_time_index at h
  split at h
  · cases h
  · split at h
    · cases h
    · injection h with h
      exact h.symm

/-- C6: check_time_index raises the unsupported-kind error exactly when the
possibly array-wrapped index is not a range, signed-integer or
unsigned-integer index; raises the unsorted error exactly when the kind is
supported but the values are not monotonically non-decreasing; and on
success returns the wrapped index unchanged. -/
theorem check_time_index_spec :
    ∀ t : TimeIndexInput,
      (check_time_index t = .error .unsupportedKind ↔
        supportedIndexKind (wrapTimeIndex t).kind = false) ∧
      (check_time_index t = .error .unsorted ↔
        supportedIndexKind (wrapTimeIndex t).kind = true ∧
        ¬ (wrapTimeIndex t).vals.Sorted (fun a b => a ≤ b)) ∧
      (∀ out, check_time_index t = .ok out → out = wrapTimeIndex t) := by
  intro t
  cases hk : supportedIndexKind (wrapTimeIndex t).kind with
  | false =>
    have hc : check_time_index t = .error .unsupportedKind := by
      unfold check_time_index
      rw [if_pos hk]
    refine ⟨by simp [hc, hk], by simp [hc, hk], ?_⟩
    intro out h
    rw [hc] at h
    cases h
  | true =>
    cases hm : is_monotonic (wrapTimeIndex t).vals with
    | false =>
      have hc : check_time_index t = .error .unsorted := by
        unfold check_time_index
        rw [if_neg (by simp [hk]), if_pos hm]
      have hns : ¬ (wrapTimeIndex t).vals.Sorted (fun a b => a ≤ b) := by
        intro hs
        rw [(is_monotonic_iff_sorted _).mpr hs] at hm
        cases hm
      refine ⟨by simp [hc], by simp [hc, hk, hns], ?_⟩
      intro out h
      rw [hc] at h
      cases h
    | true =>
      have hc : check_time_index t = .ok (wrapTimeIndex t) := by
        unfold check_time_index
        rw [if_neg (by simp [hk]), if_neg (by simp [hm])]
      have hs : (wrapTimeIndex t).vals.Sorted (fun a b => a ≤ b) :=
        (is_monotonic_iff_sorted _).mp hm
      refine ⟨by simp [hc], by simp [hc, hs], ?_⟩
      intro out h
      exact check_time_index_ok_val h

/-- Witness for C6: a concrete unsorted index, a monotonic index with a
duplicate accepted via the array route, and a rejected calendar index. -/
theorem check_time_index_spec_witness :
    check_time_index (.idx ⟨.int64, [3, 1, 2]⟩) = .error .unsorted ∧
    (⟨.int64, [0, 1, 1, 2]⟩ : PIndex) =
      wrapTimeIndex (.arr ⟨.int64, [0, 1, 1, 2]⟩) ∧
    check_time_index (.idx ⟨.datetime, [0, 1]⟩) = .error .unsupportedKind :=
  ⟨(check_time_index_spec (.idx ⟨.int64, [3, 1, 2]⟩)).2.1.mpr
      ⟨by decide, fun hs =>
        absurd ((is_monotonic_iff_sorted _).mpr hs) (by decide)⟩,
   (check_time_index_spec (.arr ⟨.int64, [0, 1, 1, 2]⟩)).2.2
      ⟨.int64, [0, 1, 1, 2]⟩ (by decide),
   (check_time_index_spec (.idx ⟨.datetime, [0, 1]⟩)).1.mpr (by decide)⟩

/-! ## Claim about check_alpha -/

/-- C9: check_alpha wraps a scalar confidence level into a one-element list
and accepts it exactly when it lies strictly between 0 and 1; a list of
floats is returned as is exactly when every element lies strictly between
0 and 1, with the out-of-range error otherwise; 0.05 yields [0.05] and the
boundary values 0 and 1 are rejected. -/
theorem check_alpha_spec :
    (∀ x : Rat, check_alpha (.float x) =
      if 0 < x ∧ x < 1 then .ok [x] else .error .outOfRange) ∧
    (∀ l : List Rat, check_alpha (.list (l.map some)) =
      if ∀ a ∈ l, 0 < a ∧ a < 1 then .ok l else .error .outOfRange) ∧
    check_alpha (.float (mkRat 1 20)) = .ok [mkRat 1 20] ∧
    check_alpha (.list [some (mkRat 1 2), some (mkRat 3 2)]) =
      .error .outOfRange ∧
    check_alpha (.float 0) = .error .outOfRange ∧
    check_alpha (.float 1) = .error .outOfRange := by
  refine ⟨?_, ?_, by decide, by decide, by decide, by decide⟩
  · intro x
    by_cases h0 : 0 < x
    · by_cases h1 : x < 1
      · simp [check_alpha, alphaRangeCheck, alphaInRange, h0, h1]
      · simp [check_alpha, alphaRangeCheck, alphaInRange, h0, h1]
    · simp [check_alpha, alphaRangeCheck, alphaInRange, h0]
  · intro l
    by_cases hc : ∀ a ∈ l, 0 < a ∧ a < 1
    · have hall : l.all alphaInRange = true := by
        rw [List.all_eq_true]
        intro a ha
        simp [alphaInRange, (hc a ha).1, (hc a ha).2]
      rw [if_pos hc]
      simp [check_alpha, alphaRangeCheck, hall]
    · have hall : l.all alphaInRange = false := by
        rw [Bool.eq_false_iff, ne_eq, List.all_eq_true]
        intro hal
        exact hc fun a ha => by simpa [alphaInRange] using hal a ha
      simp [check_alpha, alphaRangeCheck, hall, hc]

/-- Witness for C9 applying the scalar clause at the in-range value 1/2. -/
theorem check_alpha_spec_witness :
    check_alpha (.float (mkRat 1 2)) = .ok [mkRat 1 2] := by
  have h := check_alpha_spec.1 (mkRat 1 2)
  rw [if_pos (by decide)] at h
  exact h

/-! ## Claim about check_y -/

/-- C10: on an empty series with allow_empty set and allow_constant unset,
check_y raises: the constant-series test evaluates y.iloc[0] first, which
is out of bounds for an empty series, so the explicitly allowed empty input
still cannot succeed. -/
theorem check_y_empty_allow_empty_raises :
    ∀ idx : PIndex,
      check_y (.series [] idx) true false = .error .ilocOutOfBounds := by
  intro idx
  rfl

/-! ## Claims about check_consistent_time_index -/

theorem checkRestIndices_spec (first : PIndex) (rest : List PIndex)
    (h : ∀ y ∈ rest, check_time_index (.idx y) = .ok y) :
    (checkRestIndices first rest = .ok () ↔
      ∀ y ∈ rest, y.vals = first.vals) ∧
    ((∃ y ∈ rest, y.vals ≠ first.vals) →
      checkRestIndices first rest = .error .indexMismatch) := by
  induction rest with
  | nil => simp [checkRestIndices]
  | cons y t ih =>
    have hy := h y (List.mem_cons_self y t)
    obtain ⟨ih1, ih2⟩ := ih fun z hz => h z (List.mem_cons_of_mem y hz)
    by_cases hv : first.vals = y.vals
    · have hred : checkRestIndices first (y :: t) = checkRestIndices first t := by
        rw [checkRestIndices, hy]
        rw [if_neg (not_ne_iff.mpr hv)]
      constructor
      · rw [hred, ih1]
        constructor
        · intro hall z hz
          rcases List.mem_cons.mp hz with rfl | hz
          · exact hv.symm
          · exact hall z hz
        · intro hall z hz
          exact hall z (List.mem_cons_of_mem y hz)
      · rintro ⟨z, hz, hne⟩
        rcases List.mem_cons.mp hz with rfl | hz
        · exact absurd hv.symm hne
        · rw [hred]
          exact ih2 ⟨z, hz, hne⟩
    · have hred : checkRestIndices first (y :: t) = .error .indexMismatch := by
        rw [checkRestIndices, hy]
        rw [if_pos (fun hh => hv hh)]
      constructor
      · rw [hred]
        constructor
        · intro hh
          cases hh
        · intro hall
          exact absurd (hall y (List.mem_cons_self y t)).symm hv
      · intro _
        exact hred

/-- C5: given a nonempty list of series whose indices all pass the index
check, check_consistent_time_index succeeds if and only if every series
after the first has an index with exactly the same value sequence as the
first; when some later index differs it fails with the index-mismatch
error. -/
theorem check_consistent_index_equality (first : PIndex) (rest : List PIndex)
    (h1 : check_time_index (.idx first) = .ok first)
    (h2 : ∀ y ∈ rest, check_time_index (.idx y) = .ok y) :
    (check_consistent_time_index (first :: rest) Option.none = .ok () ↔
      ∀ y ∈ rest, y.vals = first.vals) ∧
    ((∃ y ∈ rest, y.vals ≠ first.vals) →
      check_consistent_time_index (first :: rest) Option.none =
        .error .indexMismatch) := by
  obtain ⟨hiff, herr⟩ := checkRestIndices_spec first rest h2
  cases hcr : checkRestIndices first rest with
  | error e =>
    have hc : check_consistent_time_index (first :: rest) Option.none =
        .error e := by
      rw [check_consistent_time_index, h1, hcr]
    constructor
    · rw [hc]
      constructor
      · intro hh
        cases hh
      · intro hall
        rw [hiff.mpr hall] at hcr
        cases hcr
    · intro hex
      rw [hc]
      rw [herr hex] at hcr
      injection hcr with hcr
      rw [hcr]
  | ok u =>
    cases u
    have hc : check_consistent_time_index (first :: rest) Option.none =
        .ok () := by
      rw [check_consistent_time_index, h1, hcr]
    constructor
    · rw [hc]
      simp only [true_iff]
      exact hiff.mp hcr
    · rintro ⟨z, hz, hne⟩
      exact absurd (hiff.mp hcr z hz) hne

/-- Witness for C5: same indices [0,1,2] succeed; replacing the second by
[0,1,3] yields the index-mismatch error. -/
theorem check_consistent_index_equality_witness :
    check_consistent_time_index
      [⟨.int64, [0, 1, 2]⟩, ⟨.int64, [0, 1, 2]⟩] Option.none = .ok () ∧
    check_consistent_time_index
      [⟨.int64, [0, 1, 2]⟩, ⟨.int64, [0, 1, 3]⟩] Option.none =
      .error .indexMismatch :=
  ⟨(check_consistent_index_equality ⟨.int64, [0, 1, 2]⟩ [⟨.int64, [0, 1, 2]⟩]
      (by decide) (by decide)).1.mpr (by decide),
   (check_consistent_index_equality ⟨.int64, [0, 1, 2]⟩ [⟨.int64, [0, 1, 3]⟩]
      (by decide) (by decide)).2
      ⟨⟨.int64, [0, 1, 3]⟩, by decide, by decide⟩⟩

/-- C4: given that the series part of the call succeeds and the training
index passes the index check, adding the training series makes the call
fail with the training-leak error exactly when the maximum of the training
index is at least the minimum of the first (reference) index, and succeed
exactly when the training maximum is strictly below the reference
minimum. -/
theorem check_consistent_training_precedence (first tr : PIndex)
    (rest : List PIndex) (M m : Int)
    (hok : check_consistent_time_index (first :: rest) Option.none = .ok ())
    (htr : check_time_index (.idx tr) = .ok tr)
    (hM : tr.vals.max? = some M) (hm : first.vals.min? = some m) :
    (check_consistent_time_index (first :: rest) (some tr) =
      .error .trainingLeak ↔ m ≤ M) ∧
    (check_consistent_time_index (first :: rest) (some tr) = .ok () ↔
      M < m) := by
  have hmg : maxGeMin tr.vals first.vals = decide (m ≤ M) := by
    unfold maxGeMin
    rw [hM, hm]
  cases hfi : check_time_index (.idx first) with
  | error e =>
    rw [check_consistent_time_index, hfi] at hok
    cases hok
  | ok v =>
    cases hcr : checkRestIndices first rest with
    | error e =>
      rw [check_consistent_time_index, hfi, hcr] at hok
      cases hok
    | ok u =>
      cases u
      have hc : check_consistent_time_index (first :: rest) (some tr) =
          if maxGeMin tr.vals first.vals then .error .trainingLeak
          else .ok () := by
        rw [check_consistent_time_index, hfi, hcr, htr]
      by_cases hle : m ≤ M
      · rw [hc, hmg, if_pos (by simpa using hle)]
        constructor
        · simp
          exact hle
        · constructor
          · intro hh
            cases hh
          · intro hlt
            exact absurd hle (not_le.mpr hlt)
      · rw [hc, hmg, if_neg (by simpa using hle)]
        constructor
        · constructor
          · intro hh
            cases hh
          · intro hh
            exact absurd hh hle
        · simp
          exact not_le.mp hle

/-- Witness for C4: training [0,1,2,3] against test [3,4,5] leaks at the
boundary; training [0,1,2] against test [3,4,5] is accepted. -/
theorem check_consistent_training_precedence_witness :
    check_consistent_time_index [⟨.int64, [3, 4, 5]⟩]
      (some ⟨.int64, [0, 1, 2, 3]⟩) = .error .trainingLeak ∧
    check_consistent_time_index [⟨.int64, [3, 4, 5]⟩]
      (some ⟨.int64, [0, 1, 2]⟩) = .ok () :=
  ⟨(check_consistent_training_precedence ⟨.int64, [3, 4, 5]⟩
      ⟨.int64, [0, 1, 2, 3]⟩ [] 3 3 (by decide) (by decide) (by decide)
      (by decide)).1.mpr (by decide),
   (check_consistent_training_precedence ⟨.int64, [3, 4, 5]⟩
      ⟨.int64, [0, 1, 2]⟩ [] 2 3 (by decide) (by decide) (by decide)
      (by decide)).2.mpr (by decide)⟩

end Sktime
